import Mathlib

/-!
Verification of the PULSE signal-processing pipeline (`backend/signal_processor.py`).

The Python code is shallowly embedded as executable Lean definitions:

* text is modelled as `List Char` (the pipeline's inputs are ASCII text;
  `str.lower`, `str.title` and the `\w` word-character class are modelled
  for the ASCII range);
* Python floats that only ever carry parsed JSON numbers (sentiment scores,
  confidence scores) are modelled as exact rationals `ℚ` — no arithmetic is
  performed on them by the code, they are only compared and passed through;
* timestamps are modelled as seconds (`ℕ`); `timedelta(hours=24)` is 86400
  seconds and `timedelta(days=7)` is 604800 seconds;
* Python dicts are modelled as association lists with Python's
  insertion-order update semantics (`dinsert`, `dupdate`);
* each external AI/HTTP call is abstracted as an oracle argument giving the
  parsed response, with `none` (or a dedicated error constructor) standing
  for "the request or the parse of its body raised an exception";
* a raised-and-uncaught Python exception is modelled as an `Option` result
  of `none`.
-/

/-- Word character of the regex class `\w` (ASCII range): letters, digits,
underscore.  Used for the `\b` boundary of the `$TICKER` pattern. -/
def isWordChar (c : Char) : Bool :=
  c.isAlphanum || c = '_'

/-- The regex `\b` boundary test after a run of word characters: satisfied at
end of input or when the next character is not a word character. -/
def boundaryAfter : List Char → Bool
  | [] => true
  | c :: _ => !isWordChar c

/-- Fueled scanner for `re.findall(r'\$([A-Z]\x7b1,5\x7d)\b', content)`.
At each `$` the greedy run of uppercase letters is taken; the match succeeds
(yielding the run and continuing after it) exactly when the run has length
1..5 and is followed by a word boundary — backtracking inside the run can
never succeed because every shorter cut is followed by an uppercase letter.
Fuel is the length of the remaining input, so `scanTickers` below always has
enough. -/
def scanTickersAux : Nat → List Char → List (List Char)
  | 0, _ => []
  | _ + 1, [] => []
  | fuel + 1, c :: rest =>
    if c = '$' then
      let run := rest.takeWhile Char.isUpper
      if 1 ≤ run.length ∧ run.length ≤ 5 ∧ boundaryAfter (rest.drop run.length) then
        run :: scanTickersAux fuel (rest.drop run.length)
      else
        scanTickersAux fuel rest
    else
      scanTickersAux fuel rest

/-- All captures of the `$TICKER` regex over the content, in match order. -/
def scanTickers (content : List Char) : List (List Char) :=
  scanTickersAux content.length content

/-- Python `str.lower()` (ASCII range). -/
def pyLower (s : List Char) : List Char :=
  s.map Char.toLower

/-- Python `str.title()` (ASCII range): each alphabetic character that follows
a non-alphabetic character (or the start) is uppercased, every other
alphabetic character is lowercased.  The boolean argument records whether the
previous character was alphabetic. -/
def pyTitleAux : Bool → List Char → List Char
  | _, [] => []
  | prevAlpha, c :: rest =>
    (if c.isAlpha then (if prevAlpha then c.toLower else c.toUpper) else c)
      :: pyTitleAux c.isAlpha rest

/-- Python `str.title()` (ASCII range). -/
def pyTitle (s : List Char) : List Char :=
  pyTitleAux false s

/-- Python substring test `pat in text` for strings. -/
def containsSub (text pat : List Char) : Bool :=
  pat.isPrefixOf text ||
    match text with
    | [] => false
    | _ :: t => containsSub t pat

/-- The `extracted_entities` value produced for one signal:
`{'tickers': [...], 'companies': [...], 'keywords': [...]}`. -/
structure Entities where
  tickers : List (List Char)
  companies : List (List Char)
  keywords : List (List Char)
deriving DecidableEq, Repr

/-- `TickerExtractor._extract_regex_tickers`: `$TICKER` captures, deduplicated
(`list(set(matches))`; Python set order is modelled as first-occurrence
order, which is irrelevant to the claims, all of which are about
membership). -/
def extract_regex_tickers (content : List Char) : List (List Char) :=
  (scanTickers content).dedup

/-- `TickerExtractor._extract_dictionary_tickers`: for every
`(company, ticker)` entry of the asset-mapping dictionary whose key occurs as
a substring of the lowercased content, yield the ticker and the title-cased
company name; both result lists are deduplicated.  The dictionary itself is
the contents of `asset_mapping.json`, which is passed in as `mapping`. -/
def extract_dictionary_tickers (mapping : List (List Char × List Char))
    (content : List Char) : List (List Char) × List (List Char) :=
  let found := mapping.filter fun p => containsSub (pyLower content) p.1
  ((found.map fun p => p.2).dedup, (found.map fun p => pyTitle p.1).dedup)

/-- `TickerExtractor.extract_tickers`: merge and deduplicate the regex layer
and the dictionary layer; `keywords` is always empty (the third, Gemini
layer was removed). -/
def extract_tickers (mapping : List (List Char × List Char))
    (content : List Char) : Entities :=
  let regex_tickers := extract_regex_tickers content
  let dict := extract_dictionary_tickers mapping content
  { tickers := (regex_tickers ++ dict.1).dedup
    companies := dict.2.dedup
    keywords := [] }

/-! ## Python dict model

Association lists with Python dict semantics: assigning to an existing key
replaces its value in place, assigning to a fresh key appends it, and lookup
finds the (unique, but we do not bake that in) binding for a key. -/

/-- Python `d.get(k)` / `d[k]` lookup. -/
def dlookup {α : Type} (d : List (String × α)) (k : String) : Option α :=
  (d.find? fun p => p.1 == k).map fun p => p.2

/-- Python `d[k] = v`: replace in place when the key is present, else append. -/
def dinsert {α : Type} (d : List (String × α)) (k : String) (v : α) :
    List (String × α) :=
  if d.any fun p => p.1 == k then
    d.map fun p => if p.1 == k then (k, v) else p
  else
    d ++ [(k, v)]

/-- Python `d.update(e)`: assign every binding of `e` into `d`, in order. -/
def dupdate {α : Type} (d e : List (String × α)) : List (String × α) :=
  e.foldl (fun acc p => dinsert acc p.1 p.2) d

/-- The keys of a dict, in order. -/
def dkeys {α : Type} (d : List (String × α)) : List String :=
  d.map Prod.fst

/-- Fueled version of `range(0, len(l), bs)` slicing: consecutive chunks of
`bs` elements (the last chunk may be shorter).  Fuel `l.length` suffices for
any `bs ≥ 1`. -/
def chunksAux {α : Type} (bs : Nat) : Nat → List α → List (List α)
  | 0, _ => []
  | _ + 1, [] => []
  | fuel + 1, l => l.take bs :: chunksAux bs fuel (l.drop bs)

/-- Partition a list into consecutive chunks of `bs` elements, as done by
`for i in range(0, len(signals), batch_size)`.  (Python raises `ValueError`
for a zero step; a zero `bs` never occurs in the pipeline, whose sentiment
batch size defaults to 15, and every claim about batching assumes `bs ≥ 1`.) -/
def chunks {α : Type} (bs : Nat) (l : List α) : List (List α) :=
  if bs = 0 then [] else chunksAux bs l.length l

/-! ## Data model: rows of the `raw_signals` table -/

/-- A row of `raw_signals` as the pipeline sees it: identity, content,
engagement velocity (used only for queue ordering; nullable), the
`processed` flag and the two enrichment columns (null until committed). -/
structure StoreRow where
  id : String
  title : List Char
  body : List Char
  upvotes : Int
  subreddit : String
  velocity : Option ℚ
  processed : Bool
  extracted_entities : Option Entities
  sentiment_score : Option ℚ
deriving DecidableEq, Repr

/-- The concatenation `f"{signal.get('title', '')} {signal.get('body', '')}"`
fed to the extractor. -/
def signalContent (s : StoreRow) : List Char :=
  s.title ++ ' ' :: s.body

/-! ## SentimentScorer

`SentimentScorer._score_batch` serializes the batch, performs one external
classification request, and parses the JSON object of the response.  Both
the request and the parse are abstracted as the oracle
`f : List StoreRow → Option (List (String × ℚ))`: `f batch = none` means the
request or the parse raised, `f batch = some resp` means the parse produced
the JSON object `resp`. -/

/-- The fallback of `_score_batch`'s `except` branch:
`\x7bsignal['id']: 0.0 for signal in batch\x7d`. -/
def score_batch_fallback (batch : List StoreRow) : List (String × ℚ) :=
  batch.foldl (fun acc s => dinsert acc s.id 0) []

/-- `SentimentScorer._score_batch`: the parsed response object on success —
returned as-is, with no validation of its keys or score values — and the
all-neutral fallback when the request or parse raised. -/
def score_one_batch (f : List StoreRow → Option (List (String × ℚ)))
    (batch : List StoreRow) : List (String × ℚ) :=
  match f batch with
  | some scores => scores
  | none => score_batch_fallback batch

/-- `SentimentScorer.score_batch_sentiment`: split the signals into
consecutive batches of `batch_size` and `dict.update` the per-batch results
into one accumulator dict. -/
def score_batch_sentiment (f : List StoreRow → Option (List (String × ℚ)))
    (signals : List StoreRow) (batch_size : Nat) : List (String × ℚ) :=
  (chunks batch_size signals).foldl
    (fun all_scores batch => dupdate all_scores (score_one_batch f batch)) []

/-! ## ClaudeSynthesizer

`synthesize_insights` performs one external generation request and parses its
response; `_parse_synthesis_response` decodes the JSON array, transforms each
insight object to the database schema, and returns `[]` if anything raised.
The request plus `json.loads` (including the code-fence stripping) are
abstracted as a `SynthResponse` oracle value. -/

/-- The `evidence` object of an insight as parsed from JSON: both fields are
optional dict keys. -/
structure Evidence where
  key_quotes : Option (List String)
  supporting_signal_ids : Option (List String)
deriving DecidableEq, Repr

/-- One element of the JSON array parsed from the model response.  Every
field is an optional dict key; `theme` and `confidence_score` are accessed
with `insight[...]` (raising `KeyError` when absent), the rest with
`.get(...)` defaults. -/
structure RawInsight where
  theme : Option String
  confidence_score : Option ℚ
  related_assets : Option (List String)
  sentiment : Option String
  urgency : Option String
  sources_agreeing : Option (List String)
  evidence : Option Evidence
deriving DecidableEq, Repr

/-- A database-ready insight row as built by `_parse_synthesis_response`. -/
structure Insight where
  theme : String
  confidence_score : ℚ
  sources_agreeing : List String
  related_assets : List String
  sentiment : String
  urgency : String
  evidence : Evidence
  signal_ids : List String
  expires_at : Option Nat
deriving DecidableEq, Repr

/-- The empty dict default for `insight.get('evidence', \x7b\x7d)`. -/
def emptyEvidence : Evidence :=
  { key_quotes := none, supporting_signal_ids := none }

/-- Extraction of `signal_ids`: the `supporting_signal_ids` list when both
`evidence` and that key are present, else `[]`. -/
def rawSignalIds (r : RawInsight) : List String :=
  match r.evidence with
  | some ev =>
    match ev.supporting_signal_ids with
    | some l => l
    | none => []
  | none => []

/-- Expiry computation from the raw `urgency` label:
`'immediate'` → now + 24 hours, `'developing'` → now + 7 days, anything else
(including a missing label) → no expiry. -/
def expiresAt (now : Nat) (urgency : Option String) : Option Nat :=
  if urgency = some "immediate" then some (now + 86400)
  else if urgency = some "developing" then some (now + 604800)
  else none

/-- Transformation of one parsed insight object to the database schema.
`none` models the `KeyError` raised when `theme` or `confidence_score` is
missing; all other fields fall back to their `.get` defaults. -/
def parseInsight (now : Nat) (r : RawInsight) : Option Insight :=
  match r.theme, r.confidence_score with
  | some th, some conf =>
    some
      { theme := th
        confidence_score := conf
        sources_agreeing := r.sources_agreeing.getD []
        related_assets := r.related_assets.getD []
        sentiment := r.sentiment.getD "neutral"
        urgency := r.urgency.getD "background"
        evidence := r.evidence.getD emptyEvidence
        signal_ids := rawSignalIds r
        expires_at := expiresAt now r.urgency }
  | _, _ => none

/-- The transformation loop of `_parse_synthesis_response`: builds the row
list element by element; a `KeyError` on any element aborts the whole loop
(`none`), discarding every row built so far. -/
def parseAll (now : Nat) : List RawInsight → Option (List Insight)
  | [] => some []
  | r :: rest =>
    match parseInsight now r, parseAll now rest with
    | some i, some l => some (i :: l)
    | _, _ => none

/-- `ClaudeSynthesizer._parse_synthesis_response`: `none` input models a
`json.loads` failure; any error inside the loop also yields `[]` via the
surrounding `except`. -/
def parse_synthesis_response (now : Nat) (parsed : Option (List RawInsight)) :
    List Insight :=
  match parsed with
  | none => []
  | some raws => (parseAll now raws).getD []

/-- Outcome of the synthesis request plus the `json.loads` of its body. -/
inductive SynthResponse where
  | requestError
  | parseError
  | parsed (raws : List RawInsight)
deriving DecidableEq, Repr

/-- `ClaudeSynthesizer.synthesize_insights`: a raised request is caught by
the outer `except` and yields `[]`; otherwise the response is handed to
`_parse_synthesis_response`. -/
def synthesize_insights (resp : SynthResponse) (now : Nat) : List Insight :=
  match resp with
  | .requestError => []
  | .parseError => parse_synthesis_response now none
  | .parsed raws => parse_synthesis_response now (some raws)

/-! ## SmartQueue -/

/-- Velocity ordering of the fetch query (`ORDER BY velocity DESC`): `a`
sorts before `b` when `a` is null (nulls first, PostgREST default for a
descending order) or both are present and `a ≥ b`.  No claim depends on the
ordering; it is included for fidelity of `fetch_unprocessed_signals`. -/
def velBefore : Option ℚ → Option ℚ → Bool
  | none, _ => true
  | some _, none => false
  | some a, some b => a ≥ b

/-- Insertion step of the velocity sort. -/
def insertVel (r : StoreRow) : List StoreRow → List StoreRow
  | [] => [r]
  | s :: rest =>
    if velBefore r.velocity s.velocity then r :: s :: rest
    else s :: insertVel r rest

/-- Stable insertion sort by descending velocity. -/
def sortVel (l : List StoreRow) : List StoreRow :=
  l.foldr insertVel []

/-- `SmartQueue.fetch_unprocessed_signals`: rows with `processed = FALSE`,
ordered by velocity descending, truncated to `limit`; a raised store query
(`fetchFail`) is caught and degrades to the empty list. -/
def fetch_unprocessed_signals (rows : List StoreRow) (limit : Nat)
    (fetchFail : Bool) : List StoreRow :=
  if fetchFail then []
  else (sortVel (rows.filter fun r => !r.processed)).take limit

/-- The store-side effect of one
`update(\x7b'processed': True, ...\x7d).eq('id', signal_id)` call: every row
whose id matches gets the three fields written.  The Python `.get` defaults
(`\x7b\x7d` for entities, `0.0` for sentiment) are modelled by
`Entities.mk [] [] []` and `0`. -/
def updateRow (ents : List (String × Entities)) (scores : List (String × ℚ))
    (sid : String) (r : StoreRow) : StoreRow :=
  if r.id = sid then
    { r with
      processed := true
      extracted_entities := some ((dlookup ents sid).getD ⟨[], [], []⟩)
      sentiment_score := some ((dlookup scores sid).getD 0) }
  else r

/-- `SmartQueue.mark_as_processed`: one update statement per id, in order,
inside a single `try`: the first raising update (`updFail sid = true`) aborts
the loop — later ids are left untouched — and the function returns `False`;
it returns `True` only when every update succeeded. -/
def mark_as_processed (rows : List StoreRow) (updFail : String → Bool)
    (ids : List String) (ents : List (String × Entities))
    (scores : List (String × ℚ)) : List StoreRow × Bool :=
  match ids with
  | [] => (rows, true)
  | sid :: rest =>
    if updFail sid then (rows, false)
    else mark_as_processed (rows.map (updateRow ents scores sid)) updFail rest ents scores

/-! ## SignalProcessor.run -/

/-- The two logical tables the pipeline touches. -/
structure Store where
  raw_signals : List StoreRow
  insights : List Insight
deriving DecidableEq, Repr

/-- The statistics dict returned by `run`.  The empty-fetch short circuit
returns only the three zero counts
(`\x7b'processed_count': 0, 'insights_count': 0, 'tickers_count': 0\x7d`);
a completed non-empty run returns the three counts plus the enrichment maps
and the insight list. -/
inductive RunResult where
  | empty
  | completed (processed_count insights_count tickers_count : Nat)
      (extracted_entities : List (String × Entities))
      (sentiment_scores : List (String × ℚ))
      (insights : List Insight)
deriving DecidableEq, Repr

/-- Whether the run result carries the enrichment maps and insight list. -/
def RunResult.carriesEnrichment : RunResult → Bool
  | .empty => false
  | .completed _ _ _ _ _ _ => true

/-- The extraction loop of step 2:
`extracted_entities[signal['id']] = extract_tickers(content)`. -/
def extractAll (mapping : List (List Char × List Char))
    (signals : List StoreRow) : List (String × Entities) :=
  signals.foldl
    (fun acc s => dinsert acc s.id (extract_tickers mapping (signalContent s))) []

/-- `len(set(ticker for entities in extracted_entities.values() for ticker
in entities['tickers']))`. -/
def tickersCount (ents : List (String × Entities)) : Nat :=
  ((ents.map fun p => p.2.tickers).flatten).dedup.length

/-- `SignalProcessor.run`.  Arguments after the store are the oracles of the
external world: `fetchFail` (store read raises), `fscore` (per-batch
sentiment responses), `synthResp` (synthesis response), `now` (clock for the
expiry computation), `updFail` (which per-id commit statements raise),
`insertFail` (the bulk insight insert raises).  `none` models the exception
that the final `except` re-raises to the caller; the only uncaught raiser in
the model is the insight insert.  The enrichment attached to the working
copies of the signals feeds the synthesis request, which is already
abstracted by `synthResp`, so the working-copy mutation is not modelled
separately. -/
def run (mapping : List (List Char × List Char)) (store : Store)
    (fetchFail : Bool) (fscore : List StoreRow → Option (List (String × ℚ)))
    (synthResp : SynthResponse) (now : Nat) (updFail : String → Bool)
    (insertFail : Bool) (batch_size sentiment_batch_size : Nat)
    (dry_run : Bool) : Option (RunResult × Store) :=
  let signals := fetch_unprocessed_signals store.raw_signals batch_size fetchFail
  if signals.isEmpty then some (RunResult.empty, store)
  else
    let extracted_entities := extractAll mapping signals
    let total_tickers := tickersCount extracted_entities
    let sentiment_scores := score_batch_sentiment fscore signals sentiment_batch_size
    let insights := synthesize_insights synthResp now
    let result := RunResult.completed signals.length insights.length total_tickers
      extracted_entities sentiment_scores insights
    if dry_run then some (result, store)
    else
      let rows1 := (mark_as_processed store.raw_signals updFail
        (signals.map fun s => s.id) extracted_entities sentiment_scores).1
      if insights.isEmpty then
        some (result, { raw_signals := rows1, insights := store.insights })
      else if insertFail then none
      else some (result, { raw_signals := rows1, insights := store.insights ++ insights })

/-! ## C1: commit semantics of `mark_as_processed` -/

/-- C1 (counterexample): with two unprocessed rows `a`, `b` and an update
statement that raises for id `a` only, `mark_as_processed` returns `False`
and leaves row `b` unprocessed even though the update for `b` would have
succeeded — a failure on one id does block the updates of the later ids,
refuting the best-effort per-record commit. -/
theorem c1_counterexample :
    (mark_as_processed
      [{ id := "a", title := [], body := [], upvotes := 0, subreddit := "r",
         velocity := none, processed := false, extracted_entities := none,
         sentiment_score := none },
       { id := "b", title := [], body := [], upvotes := 0, subreddit := "r",
         velocity := none, processed := false, extracted_entities := none,
         sentiment_score := none }]
      (fun sid => sid == "a") ["a", "b"] [] []).2 = false
    ∧ ((mark_as_processed
      [{ id := "a", title := [], body := [], upvotes := 0, subreddit := "r",
         velocity := none, processed := false, extracted_entities := none,
         sentiment_score := none },
       { id := "b", title := [], body := [], upvotes := 0, subreddit := "r",
         velocity := none, processed := false, extracted_entities := none,
         sentiment_score := none }]
      (fun sid => sid == "a") ["a", "b"] [] []).1.map StoreRow.processed)
      = [false, false]
    ∧ (fun sid : String => sid == "a") "b" = false := by
  refine ⟨rfl, rfl, rfl⟩

/-- C1 (amended): the records named by `ids` are updated one at a time in
order; the first raising update aborts the loop, so exactly the ids of the
longest failure-free prefix are committed, and `False` is returned exactly
when some update in the list raised (so overall failure is still reported
whenever any record failed). -/
theorem c1_mark_as_processed_prefix_commit (rows : List StoreRow)
    (updFail : String → Bool) (ids : List String)
    (ents : List (String × Entities)) (scores : List (String × ℚ)) :
    mark_as_processed rows updFail ids ents scores
      = ((ids.takeWhile fun sid => !updFail sid).foldl
          (fun acc sid => acc.map (updateRow ents scores sid)) rows,
         ids.all fun sid => !updFail sid) := by
  induction ids generalizing rows with
  | nil => rfl
  | cons sid rest ih =>
    by_cases h : updFail sid = true
    · simp [mark_as_processed, h, List.takeWhile, List.all_cons]
    · simp only [Bool.not_eq_true] at h
      simp [mark_as_processed, h, List.takeWhile, List.all_cons, ih]

/-! ## Synthesizer lemmas shared by C4, C6 and C8 -/

/-- A raw insight missing a required field poisons the whole parse loop. -/
lemma parseAll_eq_none_of_mem {now : Nat} {raws : List RawInsight}
    {r : RawInsight} (hr : r ∈ raws) (hfail : parseInsight now r = none) :
    parseAll now raws = none := by
  induction raws with
  | nil => cases hr
  | cons a rest ih =>
    rcases List.mem_cons.mp hr with h | h
    · subst h
      simp [parseAll, hfail]
    · simp [parseAll, ih h]

/-- Every insight produced by a successful parse loop comes from some raw
insight of the response. -/
lemma parseAll_mem {now : Nat} {raws : List RawInsight} {l : List Insight}
    (h : parseAll now raws = some l) {i : Insight} (hi : i ∈ l) :
    ∃ r ∈ raws, parseInsight now r = some i := by
  induction raws generalizing l with
  | nil =>
    simp [parseAll] at h
    subst h
    cases hi
  | cons a rest ih =>
    simp only [parseAll] at h
    cases ha : parseInsight now a with
    | none => rw [ha] at h; cases h
    | some b =>
      rw [ha] at h
      cases hrest : parseAll now rest with
      | none => rw [hrest] at h; cases h
      | some l2 =>
        rw [hrest] at h
        injection h with h
        subst h
        rcases List.mem_cons.mp hi with h | h
        · exact ⟨a, List.mem_cons_self a rest, by rw [ha, h]⟩
        · obtain ⟨r, hrmem, hr⟩ := ih hrest h
          exact ⟨r, List.mem_cons_of_mem a hrmem, hr⟩

/-- C4: on any failure — the generation request raising, `json.loads`
raising, or any insight object of the parsed array missing one of the
required fields `theme` / `confidence_score` — `synthesize_insights`
returns the empty list: the caught exception degrades to "no insights this
run" and never yields a partial subset of the response's insights. -/
theorem c4_synthesis_failure_returns_empty (now : Nat) (raws : List RawInsight)
    (r : RawInsight) (hr : r ∈ raws)
    (hmiss : r.theme = none ∨ r.confidence_score = none) :
    synthesize_insights (SynthResponse.parsed raws) now = []
    ∧ synthesize_insights SynthResponse.requestError now = []
    ∧ synthesize_insights SynthResponse.parseError now = [] := by
  refine ⟨?_, rfl, rfl⟩
  have hfail : parseInsight now r = none := by
    rcases hmiss with h | h
    · simp [parseInsight, h]
    · rw [parseInsight, h]
      cases r.theme <;> rfl
  simp [synthesize_insights, parse_synthesis_response,
    parseAll_eq_none_of_mem hr hfail]

/-- C4 (witness): a response whose single insight object lacks `theme`
produces no insights at all. -/
theorem c4_witness :
    (⟨none, some 1, none, none, none, none, none⟩ : RawInsight)
        ∈ [(⟨none, some 1, none, none, none, none, none⟩ : RawInsight)]
    ∧ synthesize_insights
        (SynthResponse.parsed [⟨none, some 1, none, none, none, none, none⟩]) 0 = []
    ∧ synthesize_insights SynthResponse.requestError 0 = []
    ∧ synthesize_insights SynthResponse.parseError 0 = [] := by
  refine ⟨by decide, ?_⟩
  exact c4_synthesis_failure_returns_empty 0
    [⟨none, some 1, none, none, none, none, none⟩]
    ⟨none, some 1, none, none, none, none, none⟩ (by decide) (Or.inl rfl)

/-- C6: every insight produced by parsing a synthesis response carries the
expiry computed from its urgency label: `immediate` → now + 24 hours,
`developing` → now + 7 days, and any other label (including the
`background` default substituted for a missing label) → no expiry. -/
theorem c6_expiry_from_urgency (now : Nat) (raws : List RawInsight)
    (i : Insight) (hi : i ∈ synthesize_insights (SynthResponse.parsed raws) now) :
    i.expires_at =
      (if i.urgency = "immediate" then some (now + 86400)
       else if i.urgency = "developing" then some (now + 604800)
       else none) := by
  simp only [synthesize_insights, parse_synthesis_response] at hi
  cases hall : parseAll now raws with
  | none => rw [hall] at hi; cases hi
  | some l =>
    rw [hall] at hi
    obtain ⟨r, _, hr⟩ := parseAll_mem hall hi
    cases hth : r.theme with
    | none => rw [parseInsight, hth] at hr; cases hr
    | some th =>
      cases hcf : r.confidence_score with
      | none => rw [parseInsight, hth, hcf] at hr; cases hr
      | some conf =>
        rw [parseInsight, hth, hcf] at hr
        injection hr with hr
        subst hr
        cases hu : r.urgency with
        | none => simp [expiresAt, hu]
        | some u =>
          by_cases h1 : u = "immediate"
          · simp [expiresAt, hu, h1]
          · by_cases h2 : u = "developing" <;> simp [expiresAt, hu, h1, h2]

/-- C6 (witness): a response with one `immediate` insight yields an insight
expiring 24 hours after `now = 1000`. -/
theorem c6_witness :
    (⟨"t", 7/10, [], [], "neutral", "immediate", emptyEvidence, [], some (1000 + 86400)⟩ : Insight)
        ∈ synthesize_insights
          (SynthResponse.parsed
            [⟨some "t", some (7/10), none, none, some "immediate", none, none⟩]) 1000
    ∧ (⟨"t", 7/10, [], [], "neutral", "immediate", emptyEvidence, [], some (1000 + 86400)⟩ : Insight).expires_at =
      (if (⟨"t", 7/10, [], [], "neutral", "immediate", emptyEvidence, [], some (1000 + 86400)⟩ : Insight).urgency = "immediate" then some (1000 + 86400)
       else if (⟨"t", 7/10, [], [], "neutral", "immediate", emptyEvidence, [], some (1000 + 86400)⟩ : Insight).urgency = "developing" then some (1000 + 604800)
       else none) := by
  have hmem : (⟨"t", 7/10, [], [], "neutral", "immediate", emptyEvidence, [], some (1000 + 86400)⟩ : Insight)
      ∈ synthesize_insights
        (SynthResponse.parsed
          [⟨some "t", some (7/10), none, none, some "immediate", none, none⟩]) 1000 := by
    simp [synthesize_insights, parse_synthesis_response, parseAll, parseInsight,
      rawSignalIds, expiresAt, emptyEvidence]
  refine ⟨hmem, ?_⟩
  exact c6_expiry_from_urgency 1000
    [⟨some "t", some (7/10), none, none, some "immediate", none, none⟩]
    ⟨"t", 7/10, [], [], "neutral", "immediate", emptyEvidence, [], some (1000 + 86400)⟩
    hmem

/-- C8: the Synthesizer performs no confidence filtering — when every insight
object of the parsed array carries its required fields, every one of them is
returned (same number, confidence scores copied through in order), whatever
its `confidence_score`, including values ≤ 0.5. -/
theorem c8_no_confidence_refilter (now : Nat) (raws : List RawInsight)
    (hok : ∀ r ∈ raws, r.theme.isSome ∧ r.confidence_score.isSome) :
    (synthesize_insights (SynthResponse.parsed raws) now).length = raws.length
    ∧ (synthesize_insights (SynthResponse.parsed raws) now).map
        Insight.confidence_score = raws.filterMap RawInsight.confidence_score := by
  have key : ∀ l : List RawInsight, (∀ r ∈ l, r.theme.isSome ∧ r.confidence_score.isSome) →
      ∃ out, parseAll now l = some out ∧ out.length = l.length
        ∧ out.map Insight.confidence_score = l.filterMap RawInsight.confidence_score := by
    intro l
    induction l with
    | nil => exact fun _ => ⟨[], rfl, rfl, rfl⟩
    | cons a rest ih =>
      intro h
      obtain ⟨hth, hcf⟩ := h a (List.mem_cons_self a rest)
      obtain ⟨out, hout, hlen, hmap⟩ := ih fun r hr => h r (List.mem_cons_of_mem a hr)
      cases ha : a.theme with
      | none => rw [ha] at hth; cases hth
      | some th =>
        cases hb : a.confidence_score with
        | none => rw [hb] at hcf; cases hcf
        | some conf =>
          have hcons : parseAll now (a :: rest)
              = some (⟨th, conf, a.sources_agreeing.getD [], a.related_assets.getD [],
                  a.sentiment.getD "neutral", a.urgency.getD "background",
                  a.evidence.getD emptyEvidence, rawSignalIds a,
                  expiresAt now a.urgency⟩ :: out) := by
            simp [parseAll, parseInsight, ha, hb, hout]
          exact ⟨_, hcons, by simp [hlen], by simp [List.filterMap_cons, hb, hmap]⟩
  obtain ⟨out, hout, hlen, hmap⟩ := key raws hok
  simp [synthesize_insights, parse_synthesis_response, hout, hlen, hmap]

/-- C8 (witness): an insight with confidence 0.42 — below the 0.5 policy
threshold — is passed through. -/
theorem c8_witness :
    (∀ r ∈ [(⟨some "t", some (42/100), none, none, none, none, none⟩ : RawInsight)],
      r.theme.isSome ∧ r.confidence_score.isSome)
    ∧ (synthesize_insights
        (SynthResponse.parsed
          [⟨some "t", some (42/100), none, none, none, none, none⟩]) 0).length = 1
    ∧ (synthesize_insights
        (SynthResponse.parsed
          [⟨some "t", some (42/100), none, none, none, none, none⟩]) 0).map
        Insight.confidence_score
      = [(⟨some "t", some (42/100), none, none, none, none, none⟩ : RawInsight)].filterMap
          RawInsight.confidence_score := by
  have hok : ∀ r ∈ [(⟨some "t", some (42/100), none, none, none, none, none⟩ : RawInsight)],
      r.theme.isSome ∧ r.confidence_score.isSome := by
    intro r hr
    rw [List.mem_singleton] at hr
    subst hr
    exact ⟨rfl, rfl⟩
  obtain ⟨h1, h2⟩ := c8_no_confidence_refilter 0
    [⟨some "t", some (42/100), none, none, none, none, none⟩] hok
  exact ⟨hok, h1, h2⟩

/-! ## C7: the two-layer ticker extractor -/

/-- `takeWhile` over an append: the first list is consumed entirely when all
of it satisfies the predicate, else scanning stops inside it. -/
lemma takeWhile_append_split (p : Char → Bool) (l1 l2 : List Char) :
    (l1 ++ l2).takeWhile p
      = if l1.all p then l1 ++ l2.takeWhile p else l1.takeWhile p := by
  induction l1 with
  | nil => simp
  | cons c rest ih =>
    by_cases hc : p c = true
    · simp only [List.cons_append, List.takeWhile_cons, hc, List.all_cons, ih]
      by_cases hr : rest.all p = true
      · simp [hr, hc]
      · simp [hr, hc]
    · simp only [Bool.not_eq_true] at hc
      simp [List.takeWhile_cons, hc, List.all_cons]

/-- The length of a `takeWhile` prefix. -/
lemma length_takeWhile_le (p : Char → Bool) (l : List Char) :
    (l.takeWhile p).length ≤ l.length := by
  induction l with
  | nil => simp
  | cons c rest ih =>
    rw [List.takeWhile_cons]
    by_cases hc : p c = true
    · simp only [hc, if_true, List.length_cons]
      omega
    · simp [hc]

/-- An uppercase ASCII letter is a word character. -/
lemma isWordChar_of_isUpper {c : Char} (h : c.isUpper = true) :
    isWordChar c = true := by
  simp [isWordChar, Char.isAlphanum, Char.isAlpha, h]

/-- Unfolding of the scanner at a `$`. -/
lemma scanTickersAux_cons_dollar (fuel : Nat) (rest : List Char) :
    scanTickersAux (fuel + 1) ('$' :: rest)
      = (if 1 ≤ (rest.takeWhile Char.isUpper).length
            ∧ (rest.takeWhile Char.isUpper).length ≤ 5
            ∧ boundaryAfter (rest.drop (rest.takeWhile Char.isUpper).length) = true
         then rest.takeWhile Char.isUpper
              :: scanTickersAux fuel (rest.drop (rest.takeWhile Char.isUpper).length)
         else scanTickersAux fuel rest) := by
  simp [scanTickersAux]

/-- Unfolding of the scanner at a non-`$` character. -/
lemma scanTickersAux_cons_other (fuel : Nat) (c : Char) (rest : List Char)
    (hc : ¬c = '$') :
    scanTickersAux (fuel + 1) (c :: rest) = scanTickersAux fuel rest := by
  simp [scanTickersAux, hc]

/-- A run of 1–5 uppercase letters after a `$`, followed by a word boundary,
is always captured by the scanner, wherever it occurs in the content. -/
lemma scanTickersAux_complete (tick post : List Char)
    (htick : tick.all Char.isUpper = true) (hlen1 : 1 ≤ tick.length)
    (hlen5 : tick.length ≤ 5) (hb : boundaryAfter post = true) :
    ∀ fuel : Nat, ∀ pre : List Char,
      (pre ++ '$' :: (tick ++ post)).length ≤ fuel →
      tick ∈ scanTickersAux fuel (pre ++ '$' :: (tick ++ post)) := by
  have hpostTW : post.takeWhile Char.isUpper = [] := by
    cases post with
    | nil => rfl
    | cons c rest =>
      simp only [boundaryAfter, Bool.not_eq_eq_eq_not, Bool.not_true] at hb
      rw [List.takeWhile_cons]
      have hcu : c.isUpper = false := by
        by_contra hcu
        simp only [Bool.not_eq_false] at hcu
        rw [isWordChar_of_isUpper hcu] at hb
        cases hb
      simp [hcu]
  have htickTW : (tick ++ post).takeWhile Char.isUpper = tick := by
    rw [takeWhile_append_split, if_pos htick, hpostTW, List.append_nil]
  intro fuel
  induction fuel with
  | zero => intro pre h; simp at h
  | succ fuel ih =>
    intro pre hfuel
    cases pre with
    | nil =>
      rw [List.nil_append, scanTickersAux_cons_dollar, htickTW, if_pos]
      · exact List.mem_cons_self _ _
      · refine ⟨hlen1, hlen5, ?_⟩
        rw [List.drop_left]
        exact hb
    | cons c pre2 =>
      simp only [List.cons_append, List.length_cons] at hfuel
      have hfuel2 : (pre2 ++ '$' :: (tick ++ post)).length ≤ fuel := by omega
      by_cases hc : c = '$'
      · subst hc
        have hrun : (pre2 ++ '$' :: (tick ++ post)).takeWhile Char.isUpper
            = pre2.takeWhile Char.isUpper := by
          rw [takeWhile_append_split]
          by_cases hall : pre2.all Char.isUpper = true
          · rw [if_pos hall, List.takeWhile_cons]
            have hd : ('$' : Char).isUpper = false := by decide
            rw [hd]
            simp [List.takeWhile_eq_self_iff.mpr fun x hx => (List.all_eq_true.mp hall) x hx]
          · rw [if_neg hall]
        have hkk : (pre2.takeWhile Char.isUpper).length ≤ pre2.length :=
          length_takeWhile_le _ _
        rw [List.cons_append, scanTickersAux_cons_dollar, hrun,
          List.drop_append_of_le_length hkk]
        by_cases hcond : 1 ≤ (pre2.takeWhile Char.isUpper).length
            ∧ (pre2.takeWhile Char.isUpper).length ≤ 5
            ∧ boundaryAfter (pre2.drop (pre2.takeWhile Char.isUpper).length
                ++ '$' :: (tick ++ post)) = true
        · rw [if_pos hcond]
          refine List.mem_cons_of_mem _ (ih _ ?_)
          have hd : (pre2.drop (pre2.takeWhile Char.isUpper).length).length ≤ pre2.length := by
            rw [List.length_drop]
            omega
          simp only [List.length_append, List.length_cons] at hfuel2 ⊢
          omega
        · rw [if_neg hcond]
          exact ih pre2 hfuel2
      · rw [List.cons_append, scanTickersAux_cons_other fuel c _ hc]
        exact ih pre2 hfuel2

/-- C7: the extractor's two layers.  A word-bounded `$`-prefixed run of 1–5
uppercase letters anywhere in the content is returned in `tickers`; an
asset-mapping entry whose (lowercase) key phrase occurs case-insensitively
in the content contributes its mapped ticker to `tickers` and its
title-cased key to `companies`; the merged lists are deduplicated and
`keywords` is always empty. -/
theorem c7_extract_tickers_layers (mapping : List (List Char × List Char))
    (content pre tick post key tkr : List Char)
    (hdecomp : content = pre ++ '$' :: (tick ++ post))
    (htick : tick.all Char.isUpper = true) (hlen1 : 1 ≤ tick.length)
    (hlen5 : tick.length ≤ 5) (hb : boundaryAfter post = true)
    (hkey : (key, tkr) ∈ mapping) (hlowkey : pyLower key = key)
    (hsub : containsSub (pyLower content) (pyLower key) = true) :
    tick ∈ (extract_tickers mapping content).tickers
    ∧ tkr ∈ (extract_tickers mapping content).tickers
    ∧ pyTitle key ∈ (extract_tickers mapping content).companies
    ∧ (extract_tickers mapping content).keywords = []
    ∧ (extract_tickers mapping content).tickers.Nodup
    ∧ (extract_tickers mapping content).companies.Nodup := by
  have hregex : tick ∈ scanTickers content := by
    rw [hdecomp]
    exact scanTickersAux_complete tick post htick hlen1 hlen5 hb _ pre (le_refl _)
  have hfilter : (key, tkr) ∈ mapping.filter fun p => containsSub (pyLower content) p.1 := by
    rw [List.mem_filter]
    rw [hlowkey] at hsub
    exact ⟨hkey, hsub⟩
  refine ⟨?_, ?_, ?_, rfl, ?_, ?_⟩
  · rw [extract_tickers]
    rw [List.mem_dedup]
    exact List.mem_append_left _ (List.mem_dedup.mpr hregex)
  · rw [extract_tickers]
    rw [List.mem_dedup]
    refine List.mem_append_right _ ?_
    rw [extract_dictionary_tickers]
    rw [List.mem_dedup]
    exact List.mem_map.mpr ⟨(key, tkr), hfilter, rfl⟩
  · rw [extract_tickers]
    rw [List.mem_dedup]
    rw [extract_dictionary_tickers]
    rw [List.mem_dedup]
    exact List.mem_map.mpr ⟨(key, tkr), hfilter, rfl⟩
  · exact List.nodup_dedup _
  · exact List.nodup_dedup _

/-- C7 (witness): the content `"see $ABC, nvidia up"` with the mapping entry
`nvidia → NVDA` yields `ABC` and `NVDA` in `tickers` and `Nvidia` in
`companies`, with empty `keywords` and deduplicated results. -/
theorem c7_witness :
    "ABC".data ∈ (extract_tickers [("nvidia".data, "NVDA".data)]
        "see $ABC, nvidia up".data).tickers
    ∧ "NVDA".data ∈ (extract_tickers [("nvidia".data, "NVDA".data)]
        "see $ABC, nvidia up".data).tickers
    ∧ pyTitle "nvidia".data ∈ (extract_tickers [("nvidia".data, "NVDA".data)]
        "see $ABC, nvidia up".data).companies
    ∧ (extract_tickers [("nvidia".data, "NVDA".data)]
        "see $ABC, nvidia up".data).keywords = []
    ∧ (extract_tickers [("nvidia".data, "NVDA".data)]
        "see $ABC, nvidia up".data).tickers.Nodup
    ∧ (extract_tickers [("nvidia".data, "NVDA".data)]
        "see $ABC, nvidia up".data).companies.Nodup :=
  c7_extract_tickers_layers [("nvidia".data, "NVDA".data)]
    "see $ABC, nvidia up".data "see ".data "ABC".data ", nvidia up".data
    "nvidia".data "NVDA".data (by decide) (by decide) (by decide) (by decide)
    (by decide) (by decide) (by decide) (by decide)

/-! ## Dict lemmas shared by C2 and C3 -/

lemma dkeys_append {α : Type} (d e : List (String × α)) :
    dkeys (d ++ e) = dkeys d ++ dkeys e :=
  List.map_append _ d e

/-- Assigning a fresh key appends the binding. -/
lemma dinsert_fresh {α : Type} {d : List (String × α)} {k : String} (v : α)
    (hk : k ∉ dkeys d) : dinsert d k v = d ++ [(k, v)] := by
  rw [dinsert, if_neg]
  intro hany
  obtain ⟨p, hp, hpk⟩ := List.any_eq_true.mp hany
  exact hk (List.mem_map.mpr ⟨p, hp, eq_of_beq hpk⟩)

/-- Updating with a dict of fresh, distinct keys appends it. -/
lemma dupdate_fresh {α : Type} (e d : List (String × α))
    (hfresh : ∀ k ∈ dkeys e, k ∉ dkeys d) (hnd : (dkeys e).Nodup) :
    dupdate d e = d ++ e := by
  induction e generalizing d with
  | nil => simp [dupdate]
  | cons p rest ih =>
    have hp : p.1 ∉ dkeys d := hfresh p.1 (List.mem_cons_self _ _)
    have step : dupdate d (p :: rest) = dupdate (d ++ [p]) rest := by
      rw [dupdate, List.foldl_cons, dinsert_fresh p.2 hp, ← dupdate]
    rw [step, ih (d ++ [p]) ?fresh ?nd]
    · simp
    case fresh =>
      intro k hk
      rw [dkeys_append, List.mem_append]
      rintro (hkd | hkp)
      · exact hfresh k (List.mem_cons_of_mem _ hk) hkd
      · rw [dkeys] at hnd hkp
        simp only [List.map_cons, List.nodup_cons] at hnd
        simp only [List.map, List.mem_singleton] at hkp
        exact hnd.1 (hkp ▸ hk)
    case nd =>
      rw [dkeys] at hnd ⊢
      simp only [List.map_cons, List.nodup_cons] at hnd
      exact hnd.2

lemma dlookup_eq_none_of_not_mem {α : Type} {d : List (String × α)} {k : String}
    (hk : k ∉ dkeys d) : dlookup d k = none := by
  rw [dlookup, List.find?_eq_none.mpr]
  · rfl
  · intro p hp hpk
    exact hk (List.mem_map.mpr ⟨p, hp, eq_of_beq hpk⟩)

lemma dlookup_append {α : Type} (d e : List (String × α)) (k : String) :
    dlookup (d ++ e) k
      = match dlookup d k with
        | some v => some v
        | none => dlookup e k := by
  induction d with
  | nil => simp [dlookup]
  | cons p rest ih =>
    by_cases hp : (p.1 == k) = true
    · simp [dlookup, List.find?_cons, hp]
    · simp only [Bool.not_eq_true] at hp
      simpa [dlookup, List.find?_cons, hp] using ih

/-- Looking a key up in a flattened list of dicts with globally distinct keys
finds the binding of the dict that owns the key. -/
lemma dlookup_flatten {α : Type} (outs : List (List (String × α)))
    (hnd : ((outs.map dkeys).flatten).Nodup) (j : Nat) (hj : j < outs.length)
    (k : String) (hk : k ∈ dkeys (outs.get ⟨j, hj⟩)) :
    dlookup outs.flatten k = dlookup (outs.get ⟨j, hj⟩) k := by
  induction outs generalizing j with
  | nil => cases hj
  | cons d rest ih =>
    simp only [List.map_cons, List.flatten_cons, List.nodup_append] at hnd
    cases j with
    | zero =>
      simp only [List.get] at hk ⊢
      rw [List.flatten_cons, dlookup_append]
      cases hv : dlookup d k with
      | some v => rfl
      | none =>
        exfalso
        rw [dlookup] at hv
        cases hf : List.find? (fun p => p.1 == k) d with
        | some p => rw [hf] at hv; cases hv
        | none =>
          obtain ⟨p, hp, hpk⟩ := List.mem_map.mp hk
          exact absurd (List.find?_eq_none.mp hf p hp)
            (by rw [hpk]; simp)
    | succ j2 =>
      simp only [List.get] at hk ⊢
      have hj2 : j2 < rest.length := Nat.lt_of_succ_lt_succ hj
      rw [List.flatten_cons, dlookup_append]
      have hkrest : k ∈ (rest.map dkeys).flatten := by
        rw [List.mem_flatten]
        exact ⟨dkeys (rest.get ⟨j2, hj2⟩), List.mem_map.mpr ⟨_, List.get_mem rest j2 hj2, rfl⟩, hk⟩
      have hkd : k ∉ dkeys d := fun hkd => hnd.2.2 hkd hkrest
      rw [dlookup_eq_none_of_not_mem hkd]
      exact ih hnd.2.1 j2 hj2 hk

/-! ## Batch structure of the sentiment scorer -/

lemma chunksAux_flatten {α : Type} (bs : Nat) (hbs : 0 < bs) :
    ∀ fuel : Nat, ∀ l : List α, l.length ≤ fuel →
      (chunksAux bs fuel l).flatten = l := by
  intro fuel
  induction fuel with
  | zero =>
    intro l hl
    rw [Nat.le_zero, List.length_eq_zero] at hl
    subst hl
    rfl
  | succ fuel ih =>
    intro l hl
    cases l with
    | nil => rfl
    | cons a rest =>
      have hstep : chunksAux bs (fuel + 1) (a :: rest)
          = (a :: rest).take bs :: chunksAux bs fuel ((a :: rest).drop bs) := rfl
      rw [hstep, List.flatten_cons, ih ((a :: rest).drop bs) ?hlen,
        List.take_append_drop]
      case hlen =>
        rw [List.length_drop, List.length_cons]
        rw [List.length_cons] at hl
        omega

/-- The chunks of the batching loop reassemble to the input list. -/
lemma chunks_flatten {α : Type} (bs : Nat) (hbs : 0 < bs) (l : List α) :
    (chunks bs l).flatten = l := by
  rw [chunks, if_neg (Nat.pos_iff_ne_zero.mp hbs)]
  exact chunksAux_flatten bs hbs l.length l (le_refl _)

/-- With distinct ids, the neutral fallback dict is just the per-id list of
zero scores. -/
lemma score_batch_fallback_eq (batch : List StoreRow)
    (hnd : (batch.map StoreRow.id).Nodup) :
    score_batch_fallback batch = batch.map fun s => (s.id, (0 : ℚ)) := by
  have key : ∀ l : List StoreRow, ∀ acc : List (String × ℚ),
      (∀ s ∈ l, s.id ∉ dkeys acc) → (l.map StoreRow.id).Nodup →
      l.foldl (fun acc s => dinsert acc s.id 0) acc
        = acc ++ l.map fun s => (s.id, (0 : ℚ)) := by
    intro l
    induction l with
    | nil => simp
    | cons s rest ih =>
      intro acc hfresh hnd2
      simp only [List.map_cons, List.nodup_cons] at hnd2
      rw [List.foldl_cons, dinsert_fresh 0 (hfresh s (List.mem_cons_self _ _)),
        ih (acc ++ [(s.id, 0)]) ?fresh hnd2.2, List.map_cons]
      · simp
      case fresh =>
        intro t ht
        rw [dkeys_append, List.mem_append]
        rintro (hta | hts)
        · exact hfresh t (List.mem_cons_of_mem _ ht) hta
        · simp only [dkeys, List.map, List.mem_singleton] at hts
          exact hnd2.1 (hts ▸ List.mem_map.mpr ⟨t, ht, rfl⟩)
  exact (key batch [] (by simp [dkeys]) hnd).trans (by simp)

/-- The keys of one batch result are exactly the batch's ids — whether the
response was returned (well-formed by hypothesis) or the neutral fallback
was taken. -/
lemma score_one_batch_keys (f : List StoreRow → Option (List (String × ℚ)))
    (batch : List StoreRow)
    (hwf : ∀ resp, f batch = some resp → resp.map Prod.fst = batch.map StoreRow.id)
    (hnd : (batch.map StoreRow.id).Nodup) :
    dkeys (score_one_batch f batch) = batch.map StoreRow.id := by
  rw [score_one_batch]
  cases hresp : f batch with
  | some resp => exact hwf resp hresp
  | none =>
    rw [score_batch_fallback_eq batch hnd, dkeys, List.map_map]
    rfl

/-- Structure of `score_batch_sentiment`: with distinct signal ids and
well-formed successful responses, the accumulated dict is the concatenation
of the per-batch results. -/
lemma score_batch_sentiment_eq_flatten
    (f : List StoreRow → Option (List (String × ℚ))) (signals : List StoreRow)
    (bs : Nat) (hbs : 0 < bs) (hnd : (signals.map StoreRow.id).Nodup)
    (hwf : ∀ batch resp, f batch = some resp →
      resp.map Prod.fst = batch.map StoreRow.id) :
    score_batch_sentiment f signals bs
      = ((chunks bs signals).map (score_one_batch f)).flatten := by
  have hids : ((chunks bs signals).map fun b => b.map StoreRow.id).flatten
      = signals.map StoreRow.id := by
    rw [← List.map_flatten, chunks_flatten bs hbs]
  have hndflat : (((chunks bs signals).map fun b => b.map StoreRow.id).flatten).Nodup := by
    rw [hids]; exact hnd
  have hbatchnd : ∀ b ∈ chunks bs signals, (b.map StoreRow.id).Nodup := by
    intro b hb
    have := (List.nodup_flatten.mp hndflat).1
    exact this (b.map StoreRow.id) (List.mem_map.mpr ⟨b, hb, rfl⟩)
  have hkeys : ∀ b ∈ chunks bs signals,
      dkeys (score_one_batch f b) = b.map StoreRow.id := by
    intro b hb
    exact score_one_batch_keys f b (fun resp h => hwf b resp h) (hbatchnd b hb)
  have key : ∀ batches : List (List StoreRow), ∀ acc : List (String × ℚ),
      (∀ b ∈ batches, dkeys (score_one_batch f b) = b.map StoreRow.id) →
      ((batches.map fun b => b.map StoreRow.id).flatten).Nodup →
      (∀ b ∈ batches, ∀ s ∈ b, s.id ∉ dkeys acc) →
      batches.foldl (fun acc b => dupdate acc (score_one_batch f b)) acc
        = acc ++ (batches.map (score_one_batch f)).flatten := by
    intro batches
    induction batches with
    | nil => simp
    | cons b rest ih =>
      intro acc hk hndf hfresh
      have hkb := hk b (List.mem_cons_self _ _)
      simp only [List.map_cons, List.flatten_cons, List.nodup_append] at hndf
      rw [List.foldl_cons, dupdate_fresh _ acc ?bfresh ?bnd,
        ih (acc ++ score_one_batch f b)
          (fun c hc => hk c (List.mem_cons_of_mem _ hc)) hndf.2.1 ?rfresh]
      · rw [List.map_cons, List.flatten_cons, List.append_assoc]
      case bfresh =>
        intro k hkmem
        rw [hkb] at hkmem
        obtain ⟨s, hs, hsid⟩ := List.mem_map.mp hkmem
        exact hsid ▸ hfresh b (List.mem_cons_self _ _) s hs
      case bnd =>
        rw [hkb]
        exact hndf.1
      case rfresh =>
        intro c hc s hs
        rw [dkeys_append, List.mem_append, hkb]
        rintro (hins | hinb)
        · exact hfresh c (List.mem_cons_of_mem _ hc) s hs hins
        · refine hndf.2.2 hinb ?_
          rw [List.mem_flatten]
          exact ⟨c.map StoreRow.id, List.mem_map.mpr ⟨c, hc, rfl⟩,
            List.mem_map.mpr ⟨s, hs, rfl⟩⟩
  rw [score_batch_sentiment,
    key (chunks bs signals) [] hkeys hndflat (by simp [dkeys])]
  rfl

/-- Ids of every batch of a nodup-id signal list are nodup. -/
lemma chunks_map_id_nodup (bs : Nat) (hbs : 0 < bs) (signals : List StoreRow)
    (hnd : (signals.map StoreRow.id).Nodup) :
    ∀ b ∈ chunks bs signals, (b.map StoreRow.id).Nodup := by
  intro b hb
  have hids : ((chunks bs signals).map fun c => c.map StoreRow.id).flatten
      = signals.map StoreRow.id := by
    rw [← List.map_flatten, chunks_flatten bs hbs]
  have hndflat : (((chunks bs signals).map fun c => c.map StoreRow.id).flatten).Nodup := by
    rw [hids]; exact hnd
  exact (List.nodup_flatten.mp hndflat).1 (b.map StoreRow.id)
    (List.mem_map.mpr ⟨b, hb, rfl⟩)

/-- Looking up the id of a batch member in the per-id zero dict. -/
lemma dlookup_map_zero (batch : List StoreRow) (sid : String)
    (h : sid ∈ batch.map StoreRow.id) :
    dlookup (batch.map fun s => (s.id, (0 : ℚ))) sid = some 0 := by
  induction batch with
  | nil => cases h
  | cons s rest ih =>
    rw [List.map_cons, List.mem_cons] at h
    by_cases hs : s.id = sid
    · simp [dlookup, List.find?_cons, hs]
    · have hsid : sid ∈ rest.map StoreRow.id := by
        rcases h with h | h
        · exact absurd h.symm hs
        · exact h
      have hbeq : (s.id == sid) = false := by
        rw [beq_eq_false_iff_ne]
        exact hs
      rw [List.map_cons]
      rw [dlookup] at ih ⊢
      rw [List.find?_cons, hbeq]
      exact ih hsid

/-- C2 (counterexample): `score_batch_sentiment` passes a successful batch
response through unvalidated.  With one input signal of id `a` and a
classifier response `\x7b"b": 2.0\x7d`, the returned mapping has no score at
all for the input id `a`, and the one score it does contain lies outside
`[-1, 1]` — refuting both halves of the claim. -/
theorem c2_counterexample :
    dlookup (score_batch_sentiment (fun _ => some [("b", 2)])
      [(⟨"a", [], [], 0, "r", none, false, none, none⟩ : StoreRow)] 15) "a" = none
    ∧ dlookup (score_batch_sentiment (fun _ => some [("b", 2)])
      [(⟨"a", [], [], 0, "r", none, false, none, none⟩ : StoreRow)] 15) "b" = some 2
    ∧ ¬((2 : ℚ) ≤ 1) := by
  refine ⟨rfl, rfl, by norm_num⟩

/-- C2 (amended): provided the signal ids are distinct, the batch size is at
least 1, and every successful per-batch response is well-formed — its keys
are exactly the ids of its batch and its scores lie in `[-1, 1]` — the
returned mapping carries exactly one score per input signal id (its key list
is exactly the input id list) and every score lies within `[-1, 1]`.
Without the well-formedness proviso the success path is passed through
unvalidated (see the counterexample); failed batches contribute the neutral
score 0 per id, which is in range. -/
theorem c2_score_batch_sentiment_amended
    (f : List StoreRow → Option (List (String × ℚ))) (signals : List StoreRow)
    (bs : Nat) (hbs : 0 < bs) (hnd : (signals.map StoreRow.id).Nodup)
    (hwf : ∀ batch resp, f batch = some resp →
      resp.map Prod.fst = batch.map StoreRow.id)
    (hrange : ∀ batch resp, f batch = some resp →
      ∀ p ∈ resp, -1 ≤ p.2 ∧ p.2 ≤ 1) :
    (score_batch_sentiment f signals bs).map Prod.fst = signals.map StoreRow.id
    ∧ ∀ p ∈ score_batch_sentiment f signals bs, -1 ≤ p.2 ∧ p.2 ≤ 1 := by
  have hflat := score_batch_sentiment_eq_flatten f signals bs hbs hnd hwf
  constructor
  · rw [hflat, List.map_flatten, List.map_map]
    have hcongr : (chunks bs signals).map (List.map Prod.fst ∘ score_one_batch f)
        = (chunks bs signals).map fun b => b.map StoreRow.id := by
      refine List.map_congr_left ?_
      intro b hb
      exact score_one_batch_keys f b (fun resp h => hwf b resp h)
        (chunks_map_id_nodup bs hbs signals hnd b hb)
    rw [hcongr, ← List.map_flatten, chunks_flatten bs hbs]
  · intro p hp
    rw [hflat, List.mem_flatten] at hp
    obtain ⟨out, hout, hpo⟩ := hp
    obtain ⟨b, hb, rfl⟩ := List.mem_map.mp hout
    rw [score_one_batch] at hpo
    cases hresp : f b with
    | some resp =>
      rw [hresp] at hpo
      exact hrange b resp hresp p hpo
    | none =>
      rw [hresp, score_batch_fallback_eq b
        (chunks_map_id_nodup bs hbs signals hnd b hb)] at hpo
      obtain ⟨s, _, rfl⟩ := List.mem_map.mp hpo
      constructor <;> norm_num

/-- C2 (witness): two signals with ids `a`, `b` and a well-formed classifier
produce a mapping keyed exactly by `a, b`. -/
theorem c2_witness :
    (score_batch_sentiment (fun batch => some (batch.map fun s => (s.id, 0)))
      [(⟨"a", [], [], 0, "r", none, false, none, none⟩ : StoreRow),
       (⟨"b", [], [], 0, "r", none, false, none, none⟩ : StoreRow)] 15).map Prod.fst
    = ([(⟨"a", [], [], 0, "r", none, false, none, none⟩ : StoreRow),
       (⟨"b", [], [], 0, "r", none, false, none, none⟩ : StoreRow)] : List StoreRow).map StoreRow.id :=
  (c2_score_batch_sentiment_amended
    (fun batch => some (batch.map fun s => (s.id, 0)))
    [(⟨"a", [], [], 0, "r", none, false, none, none⟩ : StoreRow),
     (⟨"b", [], [], 0, "r", none, false, none, none⟩ : StoreRow)] 15 (by decide) (by decide)
    (by
      intro batch resp h
      cases h
      rw [List.map_map]
      rfl)
    (by
      intro batch resp h p hp
      cases h
      obtain ⟨s, _, rfl⟩ := List.mem_map.mp hp
      constructor <;> norm_num)).1

/-- C3: batch isolation of sentiment scoring.  Under distinct signal ids
and well-formed successful responses (the §6 interface contract), if the
classification of the `j`-th batch raises, every id of that batch is mapped
to exactly the neutral score 0 in the returned dict, while every id of any
successfully classified batch keeps exactly the score its own batch response
assigned to it — the failure of one batch does not leak into the others. -/
theorem c3_batch_failure_isolated
    (f : List StoreRow → Option (List (String × ℚ))) (signals : List StoreRow)
    (bs j : Nat) (hbs : 0 < bs) (hnd : (signals.map StoreRow.id).Nodup)
    (hwf : ∀ batch resp, f batch = some resp →
      resp.map Prod.fst = batch.map StoreRow.id)
    (hj : j < (chunks bs signals).length)
    (hfail : f ((chunks bs signals).get ⟨j, hj⟩) = none) :
    (∀ s ∈ (chunks bs signals).get ⟨j, hj⟩,
      dlookup (score_batch_sentiment f signals bs) s.id = some 0)
    ∧ ∀ k, ∀ hk : k < (chunks bs signals).length, ∀ resp,
        f ((chunks bs signals).get ⟨k, hk⟩) = some resp →
        ∀ s ∈ (chunks bs signals).get ⟨k, hk⟩,
          dlookup (score_batch_sentiment f signals bs) s.id = dlookup resp s.id := by
  have hflat := score_batch_sentiment_eq_flatten f signals bs hbs hnd hwf
  have hkeyscongr : ((chunks bs signals).map (score_one_batch f)).map dkeys
      = (chunks bs signals).map fun b => b.map StoreRow.id := by
    rw [List.map_map]
    refine List.map_congr_left ?_
    intro b hb
    exact score_one_batch_keys f b (fun resp h => hwf b resp h)
      (chunks_map_id_nodup bs hbs signals hnd b hb)
  have hndkeys : ((((chunks bs signals).map (score_one_batch f)).map dkeys).flatten).Nodup := by
    rw [hkeyscongr, ← List.map_flatten, chunks_flatten bs hbs]
    exact hnd
  have main : ∀ k, ∀ hk : k < (chunks bs signals).length,
      ∀ s ∈ (chunks bs signals).get ⟨k, hk⟩,
      dlookup (score_batch_sentiment f signals bs) s.id
        = dlookup (score_one_batch f ((chunks bs signals).get ⟨k, hk⟩)) s.id := by
    intro k hk s hs
    have hk2 : k < ((chunks bs signals).map (score_one_batch f)).length := by
      rw [List.length_map]; exact hk
    have hget : ((chunks bs signals).map (score_one_batch f)).get ⟨k, hk2⟩
        = score_one_batch f ((chunks bs signals).get ⟨k, hk⟩) := by
      simp [List.get_eq_getElem, List.getElem_map]
    have hkid : s.id ∈ dkeys (((chunks bs signals).map (score_one_batch f)).get ⟨k, hk2⟩) := by
      rw [hget, score_one_batch_keys f _ (fun resp h => hwf _ resp h)
        (chunks_map_id_nodup bs hbs signals hnd _ (List.get_mem _ k hk))]
      exact List.mem_map.mpr ⟨s, hs, rfl⟩
    rw [hflat, dlookup_flatten _ hndkeys k hk2 s.id hkid, hget]
  constructor
  · intro s hs
    rw [main j hj s hs, score_one_batch, hfail,
      score_batch_fallback_eq _ (chunks_map_id_nodup bs hbs signals hnd _
        (List.get_mem _ j hj))]
    exact dlookup_map_zero _ s.id (List.mem_map.mpr ⟨s, hs, rfl⟩)
  · intro k hk resp hresp s hs
    rw [main k hk s hs, score_one_batch, hresp]

/-- C3 (witness): batch size 1 over ids `a`, `b`, where the batch holding
`a` fails and the batch holding `b` answers 1/2: `a` scores 0, `b` keeps its
own batch's score. -/
theorem c3_witness :
    dlookup (score_batch_sentiment
      (fun batch => if batch.any fun s => s.id == "a" then none
        else some (batch.map fun s => (s.id, (1 : ℚ)/2)))
      [(⟨"a", [], [], 0, "r", none, false, none, none⟩ : StoreRow),
       (⟨"b", [], [], 0, "r", none, false, none, none⟩ : StoreRow)] 1) "a" = some 0
    ∧ dlookup (score_batch_sentiment
      (fun batch => if batch.any fun s => s.id == "a" then none
        else some (batch.map fun s => (s.id, (1 : ℚ)/2)))
      [(⟨"a", [], [], 0, "r", none, false, none, none⟩ : StoreRow),
       (⟨"b", [], [], 0, "r", none, false, none, none⟩ : StoreRow)] 1) "b"
      = dlookup [("b", (1 : ℚ)/2)] "b" := by
  have hwf : ∀ (batch : List StoreRow) (resp : List (String × ℚ)),
      (if batch.any fun s => s.id == "a" then none
        else some (batch.map fun s => (s.id, (1 : ℚ)/2))) = some resp →
      resp.map Prod.fst = batch.map StoreRow.id := by
    intro batch resp h
    by_cases hc : (batch.any fun s => s.id == "a") = true
    · simp only [hc, if_true] at h
      cases h
    · simp only [Bool.not_eq_true] at hc
      simp only [hc, Bool.false_eq_true, if_false] at h
      injection h with h
      rw [← h, List.map_map]
      rfl
  have hj : 0 < (chunks 1
      [(⟨"a", [], [], 0, "r", none, false, none, none⟩ : StoreRow),
       (⟨"b", [], [], 0, "r", none, false, none, none⟩ : StoreRow)]).length := by
    decide
  have hk1 : 1 < (chunks 1
      [(⟨"a", [], [], 0, "r", none, false, none, none⟩ : StoreRow),
       (⟨"b", [], [], 0, "r", none, false, none, none⟩ : StoreRow)]).length := by
    decide
  have h := c3_batch_failure_isolated
    (fun batch => if batch.any fun s => s.id == "a" then none
      else some (batch.map fun s => (s.id, (1 : ℚ)/2)))
    [(⟨"a", [], [], 0, "r", none, false, none, none⟩ : StoreRow),
     (⟨"b", [], [], 0, "r", none, false, none, none⟩ : StoreRow)] 1 0
    (by decide) (by decide) hwf hj rfl
  have hget0 : (chunks 1
      [(⟨"a", [], [], 0, "r", none, false, none, none⟩ : StoreRow),
       (⟨"b", [], [], 0, "r", none, false, none, none⟩ : StoreRow)]).get ⟨0, hj⟩
      = [(⟨"a", [], [], 0, "r", none, false, none, none⟩ : StoreRow)] := rfl
  have hget1 : (chunks 1
      [(⟨"a", [], [], 0, "r", none, false, none, none⟩ : StoreRow),
       (⟨"b", [], [], 0, "r", none, false, none, none⟩ : StoreRow)]).get ⟨1, hk1⟩
      = [(⟨"b", [], [], 0, "r", none, false, none, none⟩ : StoreRow)] := rfl
  refine ⟨h.1 ⟨"a", [], [], 0, "r", none, false, none, none⟩ ?_,
    h.2 1 hk1 [("b", (1 : ℚ)/2)] rfl
      ⟨"b", [], [], 0, "r", none, false, none, none⟩ ?_⟩
  · rw [hget0]
    exact List.mem_singleton.mpr rfl
  · rw [hget1]
    exact List.mem_singleton.mpr rfl

/-! ## Orchestrator claims -/

/-- C5: under `dry_run = True` a pipeline run never mutates the store — the
returned store equals the input store whatever the oracles do, so no signal
is marked processed, no enrichment column is written and no insight row is
inserted — and on a non-empty fetch the returned result still carries the
full counts, the extracted-entities map, the sentiment-score map and the
synthesized insights. -/
theorem c5_dry_run_inert_but_full_result
    (mapping : List (List Char × List Char)) (store : Store) (fetchFail : Bool)
    (fscore : List StoreRow → Option (List (String × ℚ)))
    (synthResp : SynthResponse) (now : Nat) (updFail : String → Bool)
    (insertFail : Bool) (batch_size sentiment_batch_size : Nat) :
    (run mapping store fetchFail fscore synthResp now updFail insertFail
      batch_size sentiment_batch_size true).map Prod.snd = some store
    ∧ (fetch_unprocessed_signals store.raw_signals batch_size fetchFail ≠ [] →
        run mapping store fetchFail fscore synthResp now updFail insertFail
          batch_size sentiment_batch_size true
        = some (RunResult.completed
            (fetch_unprocessed_signals store.raw_signals batch_size fetchFail).length
            (synthesize_insights synthResp now).length
            (tickersCount (extractAll mapping
              (fetch_unprocessed_signals store.raw_signals batch_size fetchFail)))
            (extractAll mapping
              (fetch_unprocessed_signals store.raw_signals batch_size fetchFail))
            (score_batch_sentiment fscore
              (fetch_unprocessed_signals store.raw_signals batch_size fetchFail)
              sentiment_batch_size)
            (synthesize_insights synthResp now), store)) := by
  by_cases hs : (fetch_unprocessed_signals store.raw_signals batch_size fetchFail).isEmpty = true
  · constructor
    · simp [run, hs]
    · intro hne
      rw [List.isEmpty_iff] at hs
      exact absurd hs hne
  · simp only [Bool.not_eq_true] at hs
    constructor
    · simp [run, hs]
    · intro _
      simp [run, hs]

/-- C5 (witness): a dry run over a store with one unprocessed signal leaves
the store untouched and returns the completed result. -/
theorem c5_witness :
    fetch_unprocessed_signals
      (Store.mk [(⟨"a", [], [], 0, "r", none, false, none, none⟩ : StoreRow)] []).raw_signals
      30 false ≠ []
    ∧ run [] (Store.mk [(⟨"a", [], [], 0, "r", none, false, none, none⟩ : StoreRow)] [])
        false (fun _ => none) SynthResponse.requestError 0 (fun _ => false) false 30 15 true
      = some (RunResult.completed
          (fetch_unprocessed_signals
            (Store.mk [(⟨"a", [], [], 0, "r", none, false, none, none⟩ : StoreRow)] []).raw_signals
            30 false).length
          (synthesize_insights SynthResponse.requestError 0).length
          (tickersCount (extractAll []
            (fetch_unprocessed_signals
              (Store.mk [(⟨"a", [], [], 0, "r", none, false, none, none⟩ : StoreRow)] []).raw_signals
              30 false)))
          (extractAll []
            (fetch_unprocessed_signals
              (Store.mk [(⟨"a", [], [], 0, "r", none, false, none, none⟩ : StoreRow)] []).raw_signals
              30 false))
          (score_batch_sentiment (fun _ => none)
            (fetch_unprocessed_signals
              (Store.mk [(⟨"a", [], [], 0, "r", none, false, none, none⟩ : StoreRow)] []).raw_signals
              30 false) 15)
          (synthesize_insights SynthResponse.requestError 0),
        Store.mk [(⟨"a", [], [], 0, "r", none, false, none, none⟩ : StoreRow)] []) := by
  have hne : fetch_unprocessed_signals
      (Store.mk [(⟨"a", [], [], 0, "r", none, false, none, none⟩ : StoreRow)] []).raw_signals
      30 false ≠ [] := by decide
  exact ⟨hne,
    (c5_dry_run_inert_but_full_result []
      (Store.mk [(⟨"a", [], [], 0, "r", none, false, none, none⟩ : StoreRow)] [])
      false (fun _ => none) SynthResponse.requestError 0 (fun _ => false) false
      30 15).2 hne⟩

/-- C9 (counterexample): a run over an empty store completes (not an error),
but its terminal result is the bare zero-counts dict, which does not carry
the enrichment maps — refuting "additionally carries the raw enrichment
maps ... including on the short-circuit path". -/
theorem c9_counterexample :
    run [] (Store.mk [] []) false (fun _ => none) SynthResponse.requestError 0
      (fun _ => false) false 30 15 false = some (RunResult.empty, Store.mk [] [])
    ∧ RunResult.empty.carriesEnrichment = false :=
  ⟨rfl, rfl⟩

/-- C9 (amended): every completed run reports the three counts, but the
enrichment maps and insight list are carried only on the non-empty path: an
empty fetch short-circuits to the bare zero-counts result, while a non-empty
fetch yields the completed result with signal count, insight count, unique
ticker count, both enrichment maps and the insight list. -/
theorem c9_terminal_result_shape
    (mapping : List (List Char × List Char)) (store : Store) (fetchFail : Bool)
    (fscore : List StoreRow → Option (List (String × ℚ)))
    (synthResp : SynthResponse) (now : Nat) (updFail : String → Bool)
    (insertFail : Bool) (batch_size sentiment_batch_size : Nat)
    (dry_run : Bool) (r : RunResult) (st : Store)
    (h : run mapping store fetchFail fscore synthResp now updFail insertFail
      batch_size sentiment_batch_size dry_run = some (r, st)) :
    (fetch_unprocessed_signals store.raw_signals batch_size fetchFail = [] →
      r = RunResult.empty)
    ∧ (fetch_unprocessed_signals store.raw_signals batch_size fetchFail ≠ [] →
      r = RunResult.completed
        (fetch_unprocessed_signals store.raw_signals batch_size fetchFail).length
        (synthesize_insights synthResp now).length
        (tickersCount (extractAll mapping
          (fetch_unprocessed_signals store.raw_signals batch_size fetchFail)))
        (extractAll mapping
          (fetch_unprocessed_signals store.raw_signals batch_size fetchFail))
        (score_batch_sentiment fscore
          (fetch_unprocessed_signals store.raw_signals batch_size fetchFail)
          sentiment_batch_size)
        (synthesize_insights synthResp now)) := by
  by_cases hs : (fetch_unprocessed_signals store.raw_signals batch_size fetchFail).isEmpty = true
  · have he := List.isEmpty_iff.mp hs
    simp only [run, hs, if_true] at h
    rw [Option.some.injEq, Prod.mk.injEq] at h
    exact ⟨fun _ => h.1.symm, fun hne => absurd he hne⟩
  · simp only [Bool.not_eq_true] at hs
    have hne : fetch_unprocessed_signals store.raw_signals batch_size fetchFail ≠ [] := by
      intro he
      rw [he] at hs
      cases hs
    simp only [run, hs, Bool.false_eq_true, if_false] at h
    refine ⟨fun he => absurd he hne, fun _ => ?_⟩
    cases hdry : dry_run with
    | true =>
      rw [hdry] at h
      simp only [if_true] at h
      rw [Option.some.injEq, Prod.mk.injEq] at h
      exact h.1.symm
    | false =>
      rw [hdry] at h
      simp only [Bool.false_eq_true, if_false] at h
      by_cases hins : (synthesize_insights synthResp now).isEmpty = true
      · rw [if_pos hins] at h
        rw [Option.some.injEq, Prod.mk.injEq] at h
        exact h.1.symm
      · rw [if_neg hins] at h
        cases hif : insertFail with
        | true =>
          rw [hif] at h
          simp only [if_true] at h
          cases h
        | false =>
          rw [hif] at h
          simp only [Bool.false_eq_true, if_false] at h
          rw [Option.some.injEq, Prod.mk.injEq] at h
          exact h.1.symm

/-- C9 (witness): a non-empty completed run carries the counts and maps. -/
theorem c9_witness :
    fetch_unprocessed_signals
      (Store.mk [(⟨"a", [], [], 0, "r", none, false, none, none⟩ : StoreRow)] []).raw_signals
      30 false ≠ []
    ∧ (RunResult.completed 1 0 0 [("a", ⟨[], [], []⟩)] [("a", 0)] [] : RunResult)
      = RunResult.completed
        (fetch_unprocessed_signals
          (Store.mk [(⟨"a", [], [], 0, "r", none, false, none, none⟩ : StoreRow)] []).raw_signals
          30 false).length
        (synthesize_insights SynthResponse.requestError 0).length
        (tickersCount (extractAll []
          (fetch_unprocessed_signals
            (Store.mk [(⟨"a", [], [], 0, "r", none, false, none, none⟩ : StoreRow)] []).raw_signals
            30 false)))
        (extractAll []
          (fetch_unprocessed_signals
            (Store.mk [(⟨"a", [], [], 0, "r", none, false, none, none⟩ : StoreRow)] []).raw_signals
            30 false))
        (score_batch_sentiment (fun _ => none)
          (fetch_unprocessed_signals
            (Store.mk [(⟨"a", [], [], 0, "r", none, false, none, none⟩ : StoreRow)] []).raw_signals
            30 false) 15)
        (synthesize_insights SynthResponse.requestError 0) := by
  have hne : fetch_unprocessed_signals
      (Store.mk [(⟨"a", [], [], 0, "r", none, false, none, none⟩ : StoreRow)] []).raw_signals
      30 false ≠ [] := by decide
  refine ⟨hne, ?_⟩
  exact (c9_terminal_result_shape []
    (Store.mk [(⟨"a", [], [], 0, "r", none, false, none, none⟩ : StoreRow)] [])
    false (fun _ => none) SynthResponse.requestError 0 (fun _ => false) false 30 15 false
    (RunResult.completed 1 0 0 [("a", ⟨[], [], []⟩)] [("a", 0)] [])
    (Store.mk [(⟨"a", [], [], 0, "r", none, true, some ⟨[], [], []⟩, some 0⟩ : StoreRow)] [])
    rfl).2 hne

/-- C10: a commit failure is invisible in the orchestrator's result.  When
`dry_run` is false, the insight insert succeeds, and `mark_as_processed`
fails (returns `False`, its raised store error having been swallowed),
`run` still completes normally: its result equals the result of the same run
with no commit failures at all, and reports `processed_count` equal to the
number of fetched signals, with no error indication. -/
theorem c10_commit_failure_invisible
    (mapping : List (List Char × List Char)) (store : Store) (fetchFail : Bool)
    (fscore : List StoreRow → Option (List (String × ℚ)))
    (synthResp : SynthResponse) (now : Nat) (updFail : String → Bool)
    (batch_size sentiment_batch_size : Nat)
    (hfail : (mark_as_processed store.raw_signals updFail
      ((fetch_unprocessed_signals store.raw_signals batch_size fetchFail).map
        fun s => s.id)
      (extractAll mapping
        (fetch_unprocessed_signals store.raw_signals batch_size fetchFail))
      (score_batch_sentiment fscore
        (fetch_unprocessed_signals store.raw_signals batch_size fetchFail)
        sentiment_batch_size)).2 = false) :
    (run mapping store fetchFail fscore synthResp now updFail false
      batch_size sentiment_batch_size false).map Prod.fst
    = (run mapping store fetchFail fscore synthResp now (fun _ => false) false
      batch_size sentiment_batch_size false).map Prod.fst
    ∧ (run mapping store fetchFail fscore synthResp now updFail false
      batch_size sentiment_batch_size false).map Prod.fst
      = some (RunResult.completed
          (fetch_unprocessed_signals store.raw_signals batch_size fetchFail).length
          (synthesize_insights synthResp now).length
          (tickersCount (extractAll mapping
            (fetch_unprocessed_signals store.raw_signals batch_size fetchFail)))
          (extractAll mapping
            (fetch_unprocessed_signals store.raw_signals batch_size fetchFail))
          (score_batch_sentiment fscore
            (fetch_unprocessed_signals store.raw_signals batch_size fetchFail)
            sentiment_batch_size)
          (synthesize_insights synthResp now)) := by
  have hne : (fetch_unprocessed_signals store.raw_signals batch_size fetchFail).isEmpty = false := by
    cases hfe : (fetch_unprocessed_signals store.raw_signals batch_size fetchFail).isEmpty
    · rfl
    · exfalso
      have he := List.isEmpty_iff.mp hfe
      rw [he] at hfail
      simp [mark_as_processed] at hfail
  refine ⟨?_, ?_⟩ <;>
    by_cases hins : (synthesize_insights synthResp now).isEmpty = true <;>
    simp [run, hne, hins]

/-- C10 (witness): every update statement failing still yields a normally
completed result counting all fetched signals. -/
theorem c10_witness :
    (mark_as_processed
      (Store.mk [(⟨"a", [], [], 0, "r", none, false, none, none⟩ : StoreRow)] []).raw_signals
      (fun _ => true)
      ((fetch_unprocessed_signals
        (Store.mk [(⟨"a", [], [], 0, "r", none, false, none, none⟩ : StoreRow)] []).raw_signals
        30 false).map fun s => s.id)
      (extractAll []
        (fetch_unprocessed_signals
          (Store.mk [(⟨"a", [], [], 0, "r", none, false, none, none⟩ : StoreRow)] []).raw_signals
          30 false))
      (score_batch_sentiment (fun _ => none)
        (fetch_unprocessed_signals
          (Store.mk [(⟨"a", [], [], 0, "r", none, false, none, none⟩ : StoreRow)] []).raw_signals
          30 false) 15)).2 = false
    ∧ (run [] (Store.mk [(⟨"a", [], [], 0, "r", none, false, none, none⟩ : StoreRow)] [])
        false (fun _ => none) SynthResponse.requestError 0 (fun _ => true) false
        30 15 false).map Prod.fst
      = some (RunResult.completed
          (fetch_unprocessed_signals
            (Store.mk [(⟨"a", [], [], 0, "r", none, false, none, none⟩ : StoreRow)] []).raw_signals
            30 false).length
          (synthesize_insights SynthResponse.requestError 0).length
          (tickersCount (extractAll []
            (fetch_unprocessed_signals
              (Store.mk [(⟨"a", [], [], 0, "r", none, false, none, none⟩ : StoreRow)] []).raw_signals
              30 false)))
          (extractAll []
            (fetch_unprocessed_signals
              (Store.mk [(⟨"a", [], [], 0, "r", none, false, none, none⟩ : StoreRow)] []).raw_signals
              30 false))
          (score_batch_sentiment (fun _ => none)
            (fetch_unprocessed_signals
              (Store.mk [(⟨"a", [], [], 0, "r", none, false, none, none⟩ : StoreRow)] []).raw_signals
              30 false) 15)
          (synthesize_insights SynthResponse.requestError 0)) := by
  have hfail : (mark_as_processed
      (Store.mk [(⟨"a", [], [], 0, "r", none, false, none, none⟩ : StoreRow)] []).raw_signals
      (fun _ => true)
      ((fetch_unprocessed_signals
        (Store.mk [(⟨"a", [], [], 0, "r", none, false, none, none⟩ : StoreRow)] []).raw_signals
        30 false).map fun s => s.id)
      (extractAll []
        (fetch_unprocessed_signals
          (Store.mk [(⟨"a", [], [], 0, "r", none, false, none, none⟩ : StoreRow)] []).raw_signals
          30 false))
      (score_batch_sentiment (fun _ => none)
        (fetch_unprocessed_signals
          (Store.mk [(⟨"a", [], [], 0, "r", none, false, none, none⟩ : StoreRow)] []).raw_signals
          30 false) 15)).2 = false := rfl
  exact ⟨hfail,
    (c10_commit_failure_invisible []
      (Store.mk [(⟨"a", [], [], 0, "r", none, false, none, none⟩ : StoreRow)] [])
      false (fun _ => none) SynthResponse.requestError 0 (fun _ => true) 30 15
      hfail).2⟩
